import Mathlib

/-!
Verification development for the Purdue Macro Finder engine
(`meal_finder_engine.py`, `config.py`).

The Python engine is shallowly embedded: macro quantities (Python floats
holding gram amounts) become rationals; the score — in Python a float
`sqrt(radicand)` or `float('inf')` — is represented by its radicand as an
`Option ℚ` (`none` models `+inf`, returned exactly for the empty plan),
with `scoreVal` interpreting that representation into `EReal` via
`Real.sqrt`, and `scoreLt` the executable comparison matching the Python
float comparison (bridge lemma `scoreLt_iff_scoreVal_lt`).  Randomness
(`random.sample` / `random.choice` / `random.randrange` / the Metropolis
coin `random.random() < exp(..)`) is supplied by an explicit oracle
(`Rng`); theorems quantify over all oracles.  Fallible code (a Python
`ValueError`, an API failure) returns `Option`/sum results.
-/

namespace MacroFinder

namespace Config

/-- Per-macro scoring weights `Config.WEIGHTS = {'p': 3.0, 'c': 1.0, 'f': 1.5}`,
as the triple (p, c, f). -/
def WEIGHTS : ℚ × ℚ × ℚ := (3, 1, 3/2)

/-- Penalty multipliers `Config.PENALTIES = {'under_p': 2, 'over_c': 1.2, 'over_f': 3}`,
as the triple (under_p, over_c, over_f). -/
def PENALTIES : ℚ × ℚ × ℚ := (2, 6/5, 3)

/-- `Config.INITIAL_TEMP = 10000`. -/
def INITIAL_TEMP : ℚ := 10000

/-- `Config.COOLING_RATE = 0.99`. -/
def COOLING_RATE : ℚ := 99/100

/-- `Config.ITERATIONS = 3000`. -/
def ITERATIONS : ℕ := 3000

/-- `Config.MIN_ITEMS = 2`. -/
def MIN_ITEMS : ℕ := 2

/-- `Config.MAX_ITEMS = 5`. -/
def MAX_ITEMS : ℕ := 5

/-- `Config.INITIAL_ITEMS = 4`. -/
def INITIAL_ITEMS : ℕ := 4

/-- `Config.RETRY_DELAY_MIN = 5` (seconds). -/
def RETRY_DELAY_MIN : ℕ := 5

/-- `Config.RETRY_DELAY_MAX = 15` (seconds). -/
def RETRY_DELAY_MAX : ℕ := 15

end Config

/-- A menu item as built in `_load_all_menu_data` (the dict pushed onto
`master_item_list`): display name, the three macro gram amounts, dining
court, meal period, dietary trait labels and the serving-size string. -/
structure Item where
  name : String
  p : ℚ
  c : ℚ
  f : ℚ
  court : String
  meal_name : String
  traits : List String
  serving_size : String
deriving DecidableEq, Inhabited, Repr

/-- A macro triple (protein, carb, fat) — used for targets and totals,
mirroring the `{'p': _, 'c': _, 'f': _}` dicts of the Python code. -/
structure Macro3 where
  p : ℚ
  c : ℚ
  f : ℚ
deriving DecidableEq, Inhabited, Repr

/-- The scoring weights dict `{'p', 'c', 'f'}` of `_calculate_score`. -/
structure Weights where
  p : ℚ
  c : ℚ
  f : ℚ
deriving DecidableEq, Inhabited, Repr

/-- The penalties dict `{'under_p', 'over_c', 'over_f'}` of `_calculate_score`. -/
structure Penalties where
  under_p : ℚ
  over_c : ℚ
  over_f : ℚ
deriving DecidableEq, Inhabited, Repr

/-- The concrete weights record used by `find_best_meal` (`Config.WEIGHTS`). -/
def configWeights : Weights := ⟨3, 1, 3/2⟩

/-- The concrete penalties record used by `find_best_meal` (`Config.PENALTIES`). -/
def configPenalties : Penalties := ⟨2, 6/5, 3⟩

/-- `sum(item.get('p', 0) for item in meal_plan)` of `_calculate_score`. -/
def totalP (plan : List Item) : ℚ := (plan.map Item.p).sum

/-- `sum(item.get('c', 0) for item in meal_plan)` of `_calculate_score`. -/
def totalC (plan : List Item) : ℚ := (plan.map Item.c).sum

/-- `sum(item.get('f', 0) for item in meal_plan)` of `_calculate_score`. -/
def totalF (plan : List Item) : ℚ := (plan.map Item.f).sum

/-- The `totals` dict built by `_calculate_score` for a non-empty plan. -/
def calcTotals (plan : List Item) : Macro3 :=
  ⟨totalP plan, totalC plan, totalF plan⟩

/-- The `errors` dict of `_calculate_score` after the three penalty
conditionals: signed error (actual − target) per macro, the protein error
multiplied by `under_p` exactly when negative, the carb (resp. fat) error
multiplied by `over_c` (resp. `over_f`) exactly when positive. -/
def penalizedErrors (plan : List Item) (targets : Macro3) (pen : Penalties) :
    Macro3 :=
  let ep := totalP plan - targets.p
  let ec := totalC plan - targets.c
  let ef := totalF plan - targets.f
  ⟨if ep < 0 then ep * pen.under_p else ep,
   if ec > 0 then ec * pen.over_c else ec,
   if ef > 0 then ef * pen.over_f else ef⟩

/-- The radicand of the score of `_calculate_score`: the Python code
returns `(weights['p']*errors['p']**2 + weights['c']*errors['c']**2 +
weights['f']*errors['f']**2)**0.5`; this is the quantity under the square
root. -/
def scoreSq (plan : List Item) (targets : Macro3) (w : Weights)
    (pen : Penalties) : ℚ :=
  let e := penalizedErrors plan targets pen
  w.p * e.p ^ 2 + w.c * e.c ^ 2 + w.f * e.f ^ 2

/-- Embedding of `MealFinder._calculate_score`.  The Python function
returns `(float('inf'), {})` for an empty plan and
`(sqrt (scoreSq ..), totals)` otherwise; the score is represented by its
radicand (`none` = `+inf`) and the empty totals dict by `none`.
`scoreVal` recovers the real-valued score. -/
def calculate_score (plan : List Item) (targets : Macro3) (w : Weights)
    (pen : Penalties) : Option ℚ × Option Macro3 :=
  if plan = [] then (none, none)
  else (some (scoreSq plan targets w pen), some (calcTotals plan))

/-- Interpretation of the score representation as an extended real:
`none` is `float('inf')`, `some q` is `sqrt q`. -/
noncomputable def scoreVal : Option ℚ → EReal
  | none => ⊤
  | some q => ((Real.sqrt (q : ℝ) : ℝ) : EReal)

/-- Executable comparison of two represented scores, matching the Python
float `<` on `sqrt _` / `inf` values (see `scoreLt_iff_scoreVal_lt`). -/
def scoreLt : Option ℚ → Option ℚ → Bool
  | some a, some b => decide (a < b)
  | some _, none => true
  | none, _ => false

theorem scoreSq_nonneg (plan : List Item) (targets : Macro3) (w : Weights)
    (pen : Penalties) (hp : 0 ≤ w.p) (hc : 0 ≤ w.c) (hf : 0 ≤ w.f) :
    0 ≤ scoreSq plan targets w pen := by
  have h1 : 0 ≤ w.p * (penalizedErrors plan targets pen).p ^ 2 :=
    mul_nonneg hp (sq_nonneg _)
  have h2 : 0 ≤ w.c * (penalizedErrors plan targets pen).c ^ 2 :=
    mul_nonneg hc (sq_nonneg _)
  have h3 : 0 ≤ w.f * (penalizedErrors plan targets pen).f ^ 2 :=
    mul_nonneg hf (sq_nonneg _)
  have := add_nonneg (add_nonneg h1 h2) h3
  simpa [scoreSq] using this

theorem scoreLt_iff_scoreVal_lt (a b : Option ℚ)
    (ha : ∀ q, a = some q → 0 ≤ q) (hb : ∀ q, b = some q → 0 ≤ q) :
    scoreLt a b = true ↔ scoreVal a < scoreVal b := by
  cases a with
  | none =>
    simp [scoreLt, scoreVal]
  | some qa =>
    cases b with
    | none =>
      simp [scoreLt, scoreVal]
    | some qb =>
      have hqa : (0 : ℚ) ≤ qa := ha qa rfl
      have hqb : (0 : ℚ) ≤ qb := hb qb rfl
      simp only [scoreLt, scoreVal, decide_eq_true_eq, EReal.coe_lt_coe_iff]
      constructor
      · intro h
        exact Real.sqrt_lt_sqrt (by exact_mod_cast hqa) (by exact_mod_cast h)
      · intro h
        by_contra hle
        push_neg at hle
        have : Real.sqrt qb ≤ Real.sqrt qa :=
          Real.sqrt_le_sqrt (by exact_mod_cast hle)
        exact absurd h (not_lt.mpr this)

/-- Characters matched by the regex character class of `r'[\d.]+'` in
`_get_numeric_value`: a decimal digit or a dot. -/
def isNumChar (ch : Char) : Bool := ch.isDigit || ch == '.'

/-- `re.search(r'[\d.]+', s)`: the leftmost maximal run of digit-or-dot
characters of the string, if any. -/
def firstNumRun : List Char → Option (List Char)
  | [] => none
  | ch :: cs =>
    if isNumChar ch then some (ch :: cs.takeWhile isNumChar)
    else firstNumRun cs

/-- Value of a decimal digit character. -/
def digitVal (ch : Char) : ℕ := ch.toNat - '0'.toNat

/-- Numeric value of a string of decimal digit characters. -/
def digitsValNat (l : List Char) : ℕ :=
  l.foldl (fun a ch => 10 * a + digitVal ch) 0

/-- Python `float(s)` restricted to strings of digits and dots (the only
strings the regex match can produce): defined exactly when the string has
at most one dot and at least one digit; `none` models the `ValueError`
Python raises otherwise (e.g. on `"."` or `"1.2.3"`). -/
def pyFloat (l : List Char) : Option ℚ :=
  let dots := l.count '.'
  if dots = 0 then
    if l = [] then none else some (digitsValNat l : ℚ)
  else if dots = 1 then
    let ip := l.takeWhile (fun ch => ch != '.')
    let fp := (l.dropWhile (fun ch => ch != '.')).tail
    if ip = [] ∧ fp = [] then none
    else some ((digitsValNat ip : ℚ) + (digitsValNat fp : ℚ) / 10 ^ fp.length)
  else none

/-- Embedding of `MealFinder._get_numeric_value`.  The argument is an
`Option String` because the Python caller passes `fact.get('label')`,
which may be `None`; `None` and the empty string are both falsy, so the
function returns `0.0` for them.  A `none` result models a raised
`ValueError` (`float` applied to a regex match that is not a valid float
literal); `some q` models a normal return of `q`. -/
def get_numeric_value (label : Option String) : Option ℚ :=
  match label with
  | none => some 0
  | some s =>
    if s = "" then some 0
    else
      match firstNumRun s.data with
      | none => some 0
      | some run => pyFloat run

/-- The dietary-filter toggles a caller can send to `find_best_meal` as
the `dietary_filters` dict.  The five keys are the ones the repository's
UI offers ("Vegetarian", "Vegan", "No Gluten", "No Nuts", "No Eggs"); the
engine consults only the first three. -/
structure Filters where
  vegetarian : Bool
  vegan : Bool
  noGluten : Bool
  noNuts : Bool
  noEggs : Bool
deriving DecidableEq, Inhabited, Repr

/-- The per-item test of the filter block of `find_best_meal`
(lines 598–611): an item passes unless an active toggle among
"Vegetarian" (trait "Vegetarian" required), "Vegan" (trait "Vegan"
required) or "No Gluten" (trait "Contains Gluten" forbidden) rejects it.
The "No Nuts" and "No Eggs" toggles are never read by this code. -/
def passes_filter (fl : Filters) (item : Item) : Bool :=
  !(fl.vegetarian && !(item.traits.contains "Vegetarian")) &&
  !(fl.vegan && !(item.traits.contains "Vegan")) &&
  !(fl.noGluten && item.traits.contains "Contains Gluten")

/-- The dietary-filter pass of `find_best_meal`: keep the items passing
`passes_filter` (the construction of `filtered_master_list`). -/
def dietaryFilter (fl : Filters) (l : List Item) : List Item :=
  l.filter (passes_filter fl)

/-- Modelled from the spec (§4.3), which lists five independently toggled
restrictions (vegetarian, vegan, gluten-free, nut-free, egg-free) composing
conjunctively: the nut-free rule drops items carrying a nut trait
("Tree Nuts" or "Peanuts") and the egg-free rule drops items carrying
"Eggs", with trait names as in the repository's `streamlit_app.py`
variant, which implements all five rules.  The engine's `find_best_meal`
implements only the first three; this definition exists to exhibit that
divergence. -/
def specPassesFilter (fl : Filters) (item : Item) : Bool :=
  !(fl.vegetarian && !(item.traits.contains "Vegetarian")) &&
  !(fl.vegan && !(item.traits.contains "Vegan")) &&
  !(fl.noGluten && item.traits.contains "Contains Gluten") &&
  !(fl.noNuts && (item.traits.contains "Tree Nuts" ||
                  item.traits.contains "Peanuts")) &&
  !(fl.noEggs && item.traits.contains "Eggs")

/-- Modelled from the spec: the five-rule dietary filter (§4.3). -/
def specDietaryFilter (fl : Filters) (l : List Item) : List Item :=
  l.filter (specPassesFilter fl)

/-- A concrete item carrying nut traits, used to separate the engine's
filter from the five-rule filter of the spec. -/
def nutItem : Item :=
  ⟨"Peanut Brittle", 6, 20, 10, "Wiley", "Lunch", ["Peanuts", "Tree Nuts"], "1 bar"⟩

/-- A concrete trait-free item used in witnesses. -/
def egg : Item := ⟨"Egg", 10, 0, 5, "Wiley", "Lunch", [], "1 egg"⟩

/-- A concrete vegetarian item used in witnesses. -/
def rice : Item :=
  ⟨"Rice", 4, 40, 1, "Wiley", "Lunch", ["Vegetarian", "Vegan"], "1 cup"⟩

/-- Oracle supplying the randomness the Python optimizer draws:
index streams for `random.sample`, `random.choice` and `random.randrange`
(each consumed modulo the relevant length, so every sequence of draws the
Python code can make is realized by some oracle), plus the Metropolis coin
`random.random() < math.exp((current_score - neighbor_score) / temp)` —
whose outcome for a not-better neighbor is an oracle boolean per
iteration. -/
structure Rng where
  sampleIdx : ℕ → ℕ
  action : ℕ → ℕ
  slot : ℕ → ℕ
  poolPick : ℕ → ℕ
  addPick : ℕ → ℕ
  accept : ℕ → Bool

/-- `random.sample(pool, n)`: `n` draws without replacement, realized by
successively removing the drawn element (`t` indexes the oracle stream). -/
def sample (r : ℕ → ℕ) : ℕ → List Item → ℕ → List Item
  | _, _, 0 => []
  | t, pool, n + 1 =>
    if pool = [] then []
    else
      let i := r t % pool.length
      pool.getD i default :: sample r (t + 1) (pool.eraseIdx i) n

/-- One neighbor perturbation of the annealing loop (lines 549–563):
`random.choice(['swap', 'add', 'remove'])` maps to the oracle action value
mod 3 (0 = swap, 1 = add, 2 = remove); each move is guarded exactly as in
the code, and a failed guard leaves the neighbor equal to the current
solution. -/
def neighborOf (pool : List Item) (rng : Rng) (t : ℕ) (cur : List Item) :
    List Item :=
  match rng.action t % 3 with
  | 0 =>
    if cur.length > 1 then
      cur.set (rng.slot t % cur.length)
        (pool.getD (rng.poolPick t % pool.length) default)
    else cur
  | 1 =>
    if cur.length < Config.MAX_ITEMS then
      let possible_adds := pool.filter (fun i => decide (i ∉ cur))
      if possible_adds = [] then cur
      else cur ++ [possible_adds.getD (rng.addPick t % possible_adds.length) default]
    else cur
  | _ =>
    if cur.length > Config.MIN_ITEMS then
      cur.eraseIdx (rng.slot t % cur.length)
    else cur

/-- The mutable loop state of `_run_optimization_for_court`:
`current_solution`, `best_solution` (with its represented score and
totals; `none` score = `float('inf')`, `none` totals = `{}`) and `temp`. -/
structure AnnealState where
  current : List Item
  best : Option (List Item)
  bestKey : Option ℚ
  bestTotals : Option Macro3
  temp : ℚ
deriving Repr

/-- One iteration body of the annealing loop (lines 546–579): build the
neighbor, score current and neighbor, accept the neighbor if strictly
better or if the Metropolis coin succeeds, record the neighbor as best if
it strictly improves the best score, and cool the temperature. -/
def annealStep (pool : List Item) (targets : Macro3) (w : Weights)
    (pen : Penalties) (rng : Rng) (t : ℕ) (st : AnnealState) : AnnealState :=
  let neighbor := neighborOf pool rng t st.current
  let currentKey := (calculate_score st.current targets w pen).1
  let neighborRes := calculate_score neighbor targets w pen
  let current2 :=
    if scoreLt neighborRes.1 currentKey || rng.accept t then neighbor
    else st.current
  if scoreLt neighborRes.1 st.bestKey then
    { current := current2, best := some neighbor, bestKey := neighborRes.1,
      bestTotals := neighborRes.2, temp := st.temp * Config.COOLING_RATE }
  else
    { st with current := current2, temp := st.temp * Config.COOLING_RATE }

/-- The `for _ in range(iterations)` loop with its `if temp <= 1: break`
header; `n` is the remaining iteration budget and `t` the oracle index. -/
def annealLoop (pool : List Item) (targets : Macro3) (w : Weights)
    (pen : Penalties) (rng : Rng) : ℕ → ℕ → AnnealState → AnnealState
  | 0, _, st => st
  | n + 1, t, st =>
    if st.temp ≤ 1 then st
    else annealLoop pool targets w pen rng n (t + 1)
      (annealStep pool targets w pen rng t st)

/-- The `return best_solution, best_score, best_totals` tuple of
`_run_optimization_for_court`, as a function of the final loop state. -/
def finishState (st : AnnealState) :
    Option (List Item) × Option ℚ × Option Macro3 :=
  (st.best, st.bestKey, st.bestTotals)

/-- Embedding of `MealFinder._run_optimization_for_court`: fail with
`(None, inf, {})` — here `(none, none, none)` — when the pool is smaller
than `Config.MIN_ITEMS`; otherwise run the annealing loop from a random
initial sample of size `min(Config.INITIAL_ITEMS, len(pool))` and return
`(best_solution, best_score, best_totals)`. -/
def run_optimization_for_court (pool : List Item) (targets : Macro3)
    (w : Weights) (pen : Penalties) (rng : Rng) :
    Option (List Item) × Option ℚ × Option Macro3 :=
  if pool.length < Config.MIN_ITEMS then (none, none, none)
  else
    let initial_size := min Config.INITIAL_ITEMS pool.length
    let current := sample rng.sampleIdx 0 pool initial_size
    let st := annealLoop pool targets w pen rng Config.ITERATIONS 0
      ⟨current, none, none, none, Config.INITIAL_TEMP⟩
    finishState st

/-- The best-result record assembled by `find_best_meal` on an update
(lines 641–649): represented score, court, meal name taken from the first
plan item, the plan, and its totals. -/
structure BestMeal where
  score : Option ℚ
  court : String
  meal_name : String
  plan : List Item
  totals : Option Macro3
deriving Repr

/-- The per-court candidate pool of `find_best_meal` (lines 628–633):
items of that court that are not excluded and belong to a requested meal
period. -/
def courtItems (filtered : List Item) (excl : List String)
    (periods : List String) (court : String) : List Item :=
  filtered.filter (fun item =>
    decide (item.court = court) && decide (item.name ∉ excl) &&
    decide (item.meal_name ∈ periods))

/-- The `available_courts` set of `find_best_meal` (lines 614–617): the
courts of the filtered, non-excluded, in-period items.  Python iterates a
`set` in an unspecified order; the model fixes one enumeration of that
set (`List.dedup` of the court column). -/
def availableCourts (filtered : List Item) (excl : List String)
    (periods : List String) : List String :=
  ((filtered.filter (fun item =>
      decide (item.name ∉ excl) && decide (item.meal_name ∈ periods))).map
    Item.court).dedup

/-- The optimizer result of one court inside `find_best_meal` (the call
at lines 636–638, with `Config.WEIGHTS` / `Config.PENALTIES`). -/
def courtRun (filtered : List Item) (targets : Macro3)
    (excl periods : List String) (rng : String → Rng) (court : String) :
    Option (List Item) × Option ℚ × Option Macro3 :=
  run_optimization_for_court (courtItems filtered excl periods court)
    targets configWeights configPenalties (rng court)

/-- The represented score of one court's optimizer run. -/
def courtScore (filtered : List Item) (targets : Macro3)
    (excl periods : List String) (rng : String → Rng) (court : String) :
    Option ℚ :=
  (courtRun filtered targets excl periods rng court).2.1

/-- The `BestMeal` record a court contributes when its run returns a
truthy (non-empty) solution; the fallback arm is never reached for such a
court. -/
def courtBest (filtered : List Item) (targets : Macro3)
    (excl periods : List String) (rng : String → Rng) (court : String) :
    BestMeal :=
  let res := courtRun filtered targets excl periods rng court
  match res.1 with
  | some (i :: rest) => ⟨res.2.1, court, i.meal_name, i :: rest, res.2.2⟩
  | _ => ⟨res.2.1, court, "", [], none⟩

/-- The body of the `for court in available_courts` loop of
`find_best_meal` (lines 627–649) as a fold step over the accumulator
`(overall_best_solution, overall_best_score)`: run the optimizer for the
court and update when the solution is truthy and its score strictly beats
the running best. -/
def selectStep (filtered : List Item) (targets : Macro3)
    (excl periods : List String) (rng : String → Rng)
    (acc : Option BestMeal × Option ℚ) (court : String) :
    Option BestMeal × Option ℚ :=
  let res := courtRun filtered targets excl periods rng court
  match res.1 with
  | some (i :: rest) =>
    if scoreLt res.2.1 acc.2 then
      (some ⟨res.2.1, court, i.meal_name, i :: rest, res.2.2⟩, res.2.1)
    else acc
  | _ => acc

/-- Embedding of `MealFinder.find_best_meal` downstream of the
data-loading preamble (date rollover and the `data_loaded` flag are
process state outside this model): dietary filtering, the
available-court set, early `None` when it is empty, and the cross-court
selection fold. -/
def find_best_meal (master : List Item) (targets : Macro3)
    (periods : List String) (excl : List String) (fl : Filters)
    (rng : String → Rng) : Option BestMeal :=
  let filtered := dietaryFilter fl master
  let courts := availableCourts filtered excl periods
  if courts = [] then none
  else
    (courts.foldl (selectStep filtered targets excl periods rng)
      (none, none)).1

/-- Outcome of one remote Gemini call in `_fetch_ai_suggestion_from_api`,
as classified by its exception handler: a parsed suggestion payload, an
exception whose text contains both "429" and "RESOURCE_EXHAUSTED" (rate
limit), or any other failure. -/
inductive ApiOutcome where
  | ok (payload : String)
  | rateLimited
  | otherError
deriving DecidableEq, Repr

/-- What `_fetch_ai_suggestion_from_api` returns to its caller: a
suggestion payload or an error dict. -/
inductive AiResult where
  | suggestion (payload : String)
  | failure (message : String)
deriving DecidableEq, Repr

/-- `random.randint(a, b)`: an inclusive-range draw realized from an
oracle seed (any value in `[a, b]` is realized by some seed). -/
def randint (a b seed : ℕ) : ℕ := a + seed % (b - a + 1)

/-- Observable trace of one call of `_fetch_ai_suggestion_from_api`: the
returned result, the number of remote calls performed and the list of
sleeps (in seconds) executed. -/
structure FetchTrace where
  result : AiResult
  remoteCalls : ℕ
  sleeps : List ℕ
deriving DecidableEq, Repr

/-- The `is_retry=True` invocation of `_fetch_ai_suggestion_from_api`
(the recursive call at line 414): a rate-limit error now falls through to
the generic error return instead of retrying again.  `outcomes n` is what
the remote call does on attempt `n`. -/
def fetch_ai_retry (outcomes : ℕ → ApiOutcome) (attempt : ℕ) : FetchTrace :=
  match outcomes attempt with
  | .ok payload => ⟨.suggestion payload, 1, []⟩
  | .rateLimited => ⟨.failure "The AI suggestion failed. Try again.", 1, []⟩
  | .otherError => ⟨.failure "The AI suggestion failed. Try again.", 1, []⟩

/-- The remote-call portion of `_fetch_ai_suggestion_from_api` (lines
361–417, entered with `is_retry=False`): on a rate-limit error sleep
`random.randint(Config.RETRY_DELAY_MIN, Config.RETRY_DELAY_MAX)` seconds
and retry exactly once via the `is_retry=True` invocation; any other
error returns the error dict at once.  (The guard paths before the remote
call — missing API key, empty item pool — return error dicts without any
remote call and are outside this trace.) -/
def fetch_ai (outcomes : ℕ → ApiOutcome) (delaySeed : ℕ) : FetchTrace :=
  match outcomes 0 with
  | .ok payload => ⟨.suggestion payload, 1, []⟩
  | .rateLimited =>
    let delay := randint Config.RETRY_DELAY_MIN Config.RETRY_DELAY_MAX delaySeed
    let r := fetch_ai_retry outcomes 1
    ⟨r.result, r.remoteCalls + 1, delay :: r.sleeps⟩
  | .otherError => ⟨.failure "The AI suggestion failed. Try again.", 1, []⟩

/-- Embedding of `MealFinder.get_ai_suggestion` (lines 419–444) for the
current date: return a cache hit unchanged, otherwise fetch (with the
retry logic above) and store the result — error results included — under
the `(court, meal)` key. -/
def get_ai_suggestion (cache : List ((String × String) × AiResult))
    (court meal : String) (outcomes : ℕ → ApiOutcome) (delaySeed : ℕ) :
    AiResult × List ((String × String) × AiResult) :=
  match cache.lookup (court, meal) with
  | some r => (r, cache)
  | none =>
    let suggestion := (fetch_ai outcomes delaySeed).result
    (suggestion, ((court, meal), suggestion) :: cache)

/-- One output entry of `get_top_protein_foods`: the spread item dict
plus the added `calories` and `protein_density` keys. -/
structure ProteinFood where
  item : Item
  calories : ℚ
  protein_density : ℚ
deriving DecidableEq, Repr

/-- The dict-comprehension key `(item['name'], item['p'], item['c'], item['f'])`. -/
def uniqueKey (item : Item) : String × ℚ × ℚ × ℚ :=
  (item.name, item.p, item.c, item.f)

/-- One insertion into the `unique_foods` dict of `get_top_protein_foods`:
if the key is already present the value at that key is overwritten in
place, otherwise the pair is appended (Python dicts preserve key insertion
order). -/
def uniqueStep (acc : List Item) (item : Item) : List Item :=
  if acc.any (fun x => decide (uniqueKey x = uniqueKey item)) then
    acc.map (fun x => if uniqueKey x = uniqueKey item then item else x)
  else acc ++ [item]

/-- The dict comprehension `unique_foods` of `get_top_protein_foods`
(lines 265–268): an insertion-ordered keyed map — the first occurrence of
a key fixes its position, a later item with the same key overwrites the
value — returned as its list of values. -/
def uniqueFoods (l : List Item) : List Item :=
  l.foldl uniqueStep []

/-- `calories = p*4 + c*4 + f*9` (line 272). -/
def caloriesOf (item : Item) : ℚ := item.p * 4 + item.c * 4 + item.f * 9

/-- The accumulation loop of `get_top_protein_foods` (lines 270–279):
keep foods with calories > 50 and protein > 5, attaching calories and
`protein_density = p / calories * 100`. -/
def proteinDense (l : List Item) : List ProteinFood :=
  (uniqueFoods l).filterMap (fun food =>
    if caloriesOf food > 50 ∧ food.p > 5 then
      some ⟨food, caloriesOf food, food.p / caloriesOf food * 100⟩
    else none)

/-- The relation of the final sort: descending protein density
(`sort(key=.., reverse=True)`). -/
def densityGe (a b : ProteinFood) : Prop :=
  b.protein_density ≤ a.protein_density

instance : DecidableRel densityGe := fun a b =>
  inferInstanceAs (Decidable (b.protein_density ≤ a.protein_density))

/-- Embedding of `MealFinder.get_top_protein_foods`: deduplicate, filter
and enrich, sort by density in non-increasing order (Python performs a
stable descending sort; insertion sort with `densityGe` computes the same
ordering) and take the first `count` entries. -/
def get_top_protein_foods (l : List Item) (count : ℕ) : List ProteinFood :=
  (List.insertionSort densityGe (proteinDense l)).take count

/-- A concrete deterministic randomness oracle used in witnesses. -/
def zeroRng : Rng :=
  ⟨fun _ => 0, fun _ => 0, fun _ => 0, fun _ => 0, fun _ => 0, fun _ => false⟩

/-- C3: for every meal plan (and any targets, weights and penalties), the
score returned by the scoring function is `+infinity` exactly when the
plan is empty; every non-empty plan receives a finite score. -/
theorem score_infinite_iff_empty_plan (plan : List Item) (targets : Macro3)
    (w : Weights) (pen : Penalties) :
    scoreVal (calculate_score plan targets w pen).1 = ⊤ ↔ plan = [] := by
  by_cases h : plan = []
  · simp [calculate_score, h, scoreVal]
  · simp only [calculate_score, if_neg h, scoreVal]
    simp [h]

/-- Witness for `score_infinite_iff_empty_plan` at a concrete input: the
empty plan scores `+infinity`. -/
theorem score_infinite_iff_empty_plan_witness :
    scoreVal (calculate_score [] ⟨25, 45, 13⟩ configWeights configPenalties).1 = ⊤ :=
  (score_infinite_iff_empty_plan [] ⟨25, 45, 13⟩ configWeights configPenalties).mpr rfl

/-- C1: for every non-empty meal plan, `_calculate_score` totals each
macro over the plan's items, forms the signed error (actual − target) per
macro, multiplies the protein error by the under-protein penalty exactly
when negative and the carb and fat errors by their over-target penalties
exactly when positive, and returns the Euclidean norm of the three
penalized errors weighted by the per-macro weights,
`sqrt (wp*ep² + wc*ec² + wf*ef²)`, together with the macro totals. -/
theorem calculate_score_matches_spec (plan : List Item) (targets : Macro3)
    (w : Weights) (pen : Penalties) (h : plan ≠ []) :
    scoreVal (calculate_score plan targets w pen).1 =
      ((Real.sqrt ((w.p : ℝ) *
          (((if (plan.map Item.p).sum - targets.p < 0 then
              pen.under_p * ((plan.map Item.p).sum - targets.p)
            else (plan.map Item.p).sum - targets.p) : ℚ) : ℝ) ^ 2 +
        (w.c : ℝ) *
          (((if (plan.map Item.c).sum - targets.c > 0 then
              pen.over_c * ((plan.map Item.c).sum - targets.c)
            else (plan.map Item.c).sum - targets.c) : ℚ) : ℝ) ^ 2 +
        (w.f : ℝ) *
          (((if (plan.map Item.f).sum - targets.f > 0 then
              pen.over_f * ((plan.map Item.f).sum - targets.f)
            else (plan.map Item.f).sum - targets.f) : ℚ) : ℝ) ^ 2) : ℝ) :
        EReal) ∧
    (calculate_score plan targets w pen).2 =
      some ⟨(plan.map Item.p).sum, (plan.map Item.c).sum, (plan.map Item.f).sum⟩ := by
  constructor
  · simp only [calculate_score, if_neg h, scoreVal]
    norm_cast
    congr 1
    push_cast
    simp only [scoreSq, penalizedErrors, totalP, totalC, totalF]
    split_ifs <;> push_cast <;> ring
  · simp [calculate_score, h, calcTotals, totalP, totalC, totalF]

/-- Witness for `calculate_score_matches_spec` at a concrete non-empty
plan: the theorem applied to the singleton egg plan yields its totals. -/
theorem calculate_score_matches_spec_witness :
    ([egg] : List Item) ≠ [] ∧
    (calculate_score [egg] ⟨25, 45, 13⟩ configWeights configPenalties).2 =
      some ⟨10, 0, 5⟩ := by
  refine ⟨by decide, ?_⟩
  have h := (calculate_score_matches_spec [egg] ⟨25, 45, 13⟩ configWeights
    configPenalties (by decide)).2
  simpa [egg] using h

/-- C8: for every non-empty meal plan whose total protein is strictly
below the protein target, the score is strictly increasing in the
under-protein penalty multiplier (over its meaningful non-negative
range), holding the plan, the targets, the configured weights and the
other two penalties fixed. -/
theorem score_mono_in_under_protein_penalty (plan : List Item)
    (targets : Macro3) (pen : Penalties) (q1 q2 : ℚ) (hplan : plan ≠ [])
    (hdef : totalP plan < targets.p) (h1 : 0 ≤ q1) (h12 : q1 < q2) :
    scoreVal (calculate_score plan targets configWeights
        { pen with under_p := q1 }).1 <
      scoreVal (calculate_score plan targets configWeights
        { pen with under_p := q2 }).1 := by
  have hep : totalP plan - targets.p < 0 := sub_neg.mpr hdef
  have key : scoreSq plan targets configWeights { pen with under_p := q1 } <
      scoreSq plan targets configWeights { pen with under_p := q2 } := by
    simp only [scoreSq, penalizedErrors, if_pos hep, configWeights]
    have hq : q1 ^ 2 < q2 ^ 2 := by
      calc q1 ^ 2 < q2 * q1 + q2 * (q2 - q1) := by nlinarith
      _ = q2 ^ 2 := by ring
    have hep2 : 0 < (totalP plan - targets.p) ^ 2 :=
      pow_two_pos_of_ne_zero (ne_of_lt hep)
    nlinarith [sq_nonneg (totalP plan - targets.p)]
  have hnn : 0 ≤ scoreSq plan targets configWeights { pen with under_p := q1 } :=
    scoreSq_nonneg _ _ _ _ (by norm_num [configWeights])
      (by norm_num [configWeights]) (by norm_num [configWeights])
  simp only [calculate_score, if_neg hplan, scoreVal]
  rw [EReal.coe_lt_coe_iff]
  exact Real.sqrt_lt_sqrt (by exact_mod_cast hnn) (by exact_mod_cast key)

/-- Witness for `score_mono_in_under_protein_penalty`: a concrete
protein-deficient plan gets a strictly lower score with multiplier 1 than
with multiplier 2. -/
theorem score_mono_in_under_protein_penalty_witness :
    ([egg] : List Item) ≠ [] ∧ totalP [egg] < (25 : ℚ) ∧
    scoreVal (calculate_score [egg] ⟨25, 45, 13⟩ configWeights
        { configPenalties with under_p := 1 }).1 <
      scoreVal (calculate_score [egg] ⟨25, 45, 13⟩ configWeights
        { configPenalties with under_p := 2 }).1 := by
  refine ⟨by decide, by simp [totalP, egg]; decide, ?_⟩
  exact score_mono_in_under_protein_penalty [egg] ⟨25, 45, 13⟩
    configPenalties 1 2 (by decide) (by simp [totalP, egg]; decide)
    (by decide) (by decide)

/-- C6: for every candidate pool smaller than `Config.MIN_ITEMS` (2), the
optimizer fails with the insufficient-items outcome — no solution, score
`+infinity`, empty totals — and never returns a degenerate solution. -/
theorem optimizer_insufficient_items (pool : List Item) (targets : Macro3)
    (w : Weights) (pen : Penalties) (rng : Rng)
    (h : pool.length < Config.MIN_ITEMS) :
    run_optimization_for_court pool targets w pen rng = (none, none, none) ∧
    scoreVal (run_optimization_for_court pool targets w pen rng).2.1 = ⊤ := by
  have hrun : run_optimization_for_court pool targets w pen rng =
      (none, none, none) := by
    simp [run_optimization_for_court, if_pos h]
  exact ⟨hrun, by rw [hrun]; rfl⟩

/-- Witness for `optimizer_insufficient_items`: a pool holding exactly
one item yields the failure outcome, not a single-item solution. -/
theorem optimizer_insufficient_items_witness :
    ([egg] : List Item).length < Config.MIN_ITEMS ∧
    run_optimization_for_court [egg] ⟨25, 45, 13⟩ configWeights
      configPenalties zeroRng = (none, none, none) := by
  refine ⟨by decide, ?_⟩
  exact (optimizer_insufficient_items [egg] ⟨25, 45, 13⟩ configWeights
    configPenalties zeroRng (by decide)).1

/-- C5 counterexample: on the label `"."` the regex `[\d.]+` matches
`"."`, and Python `float(".")` raises `ValueError` (modelled by `none`),
so numeric label parsing is not total and does not return 0.0 for this
unparsable label. -/
theorem get_numeric_value_dot_counterexample :
    get_numeric_value (some ".") = none := by decide

/-- C5 amended: numeric label parsing returns the numeric value embedded
in a unit-suffixed label and never fails, provided the leftmost
digit-or-dot run of the label (if any) is a well-formed decimal numeral
(at most one dot and at least one digit) — on labels such as `"."` or
`"1.2.3"` the code instead raises `ValueError`; an absent label, an empty
label, or a label with no digit-or-dot character at all parses to 0.0; in
particular `"15g"` parses to 15.0, `"20.5g"` to 20.5, and `""`, `None`
and `"N/A"` to 0.0. -/
theorem get_numeric_value_spec :
    (∀ s : String, ∀ run : List Char, firstNumRun s.data = some run →
      (pyFloat run).isSome → (get_numeric_value (some s)).isSome) ∧
    (∀ s : String, ∀ run : List Char, ∀ q : ℚ,
      firstNumRun s.data = some run → pyFloat run = some q →
      get_numeric_value (some s) = some q) ∧
    (∀ s : String, firstNumRun s.data = none →
      get_numeric_value (some s) = some 0) ∧
    get_numeric_value none = some 0 ∧
    get_numeric_value (some "") = some 0 ∧
    get_numeric_value (some "N/A") = some 0 ∧
    get_numeric_value (some "15g") = some 15 ∧
    get_numeric_value (some "20.5g") = some (41/2) := by
  refine ⟨?_, ?_, ?_, rfl, by decide, by decide, ?_, ?_⟩
  · intro s run hrun hsome
    by_cases hs : s = ""
    · simp [get_numeric_value, hs]
    · simp [get_numeric_value, hs, hrun, hsome]
  · intro s run q hrun hq
    by_cases hs : s = ""
    · subst hs
      simp [firstNumRun] at hrun
    · simp [get_numeric_value, hs, hrun, hq]
  · intro s hnone
    by_cases hs : s = ""
    · simp [get_numeric_value, hs]
    · simp [get_numeric_value, hs, hnone]
  · have h1 : firstNumRun "15g".data = some ['1', '5'] := by decide
    have h2 : digitsValNat ['1', '5'] = 15 := by decide
    simp [get_numeric_value, h1, pyFloat, h2]
  · have h1 : firstNumRun "20.5g".data = some ['2', '0', '.', '5'] := by decide
    have h2 : digitsValNat ['2', '0'] = 20 := by decide
    have h3 : digitsValNat ['5'] = 5 := by decide
    simp [get_numeric_value, h1, pyFloat, h2, h3]
    norm_num

/-- Witness for `get_numeric_value_spec`: its totality clause applied to
the concrete label `"15g"` with run `['1', '5']`. -/
theorem get_numeric_value_spec_witness :
    (get_numeric_value (some "15g")).isSome :=
  get_numeric_value_spec.1 "15g" ['1', '5'] (by decide) (by decide)

/-- C4 counterexample: with only the nut-free restriction active, the
engine's dietary filter keeps an item whose traits are exactly
`["Peanuts", "Tree Nuts"]`, whereas the five-rule filter of the spec
drops it — so the filter does not drop every item failing an active
restriction among the five. -/
theorem dietary_filter_nut_free_counterexample :
    dietaryFilter ⟨false, false, false, true, false⟩ [nutItem] = [nutItem] ∧
    specDietaryFilter ⟨false, false, false, true, false⟩ [nutItem] = [] := by
  exact ⟨by decide, by decide⟩

/-- C4 amended: the engine's dietary filter implements exactly the
vegetarian ("Vegetarian" trait required), vegan ("Vegan" trait required)
and gluten-free ("Contains Gluten" trait forbidden) rules, composed
conjunctively over the active toggles; the nut-free and egg-free toggles
have no effect; and when none of the three implemented restrictions is
active the filter is the identity. -/
theorem dietary_filter_three_rules (fl : Filters) (l : List Item) :
    dietaryFilter fl l = l.filter (fun item =>
      (!fl.vegetarian || item.traits.contains "Vegetarian") &&
      (!fl.vegan || item.traits.contains "Vegan") &&
      (!fl.noGluten || !(item.traits.contains "Contains Gluten"))) ∧
    dietaryFilter fl l =
      dietaryFilter { fl with noNuts := false, noEggs := false } l ∧
    (fl.vegetarian = false → fl.vegan = false → fl.noGluten = false →
      dietaryFilter fl l = l) := by
  refine ⟨?_, rfl, ?_⟩
  · unfold dietaryFilter
    apply List.filter_congr
    intro item _
    simp [passes_filter]
  · intro h1 h2 h3
    simp [dietaryFilter, passes_filter, h1, h2, h3]

/-- Witness for `dietary_filter_three_rules`: with no restriction active
the filter leaves a concrete list unchanged. -/
theorem dietary_filter_three_rules_witness :
    dietaryFilter ⟨false, false, false, true, true⟩ [nutItem, egg, rice] =
      [nutItem, egg, rice] :=
  (dietary_filter_three_rules ⟨false, false, false, true, true⟩
    [nutItem, egg, rice]).2.2 rfl rfl rfl

/-- C9: for every AI-suggestion fetch, a rate-limit outcome of the remote
call triggers exactly one sleep — of a duration between the configured
minimum and maximum seconds — followed by exactly one retry (two remote
calls in total); the retried call's success is returned, while a second
rate-limit failure or any other error yields an error result with no
further retry; a non-rate-limit error yields an error result after a
single call; and on a cache miss `get_ai_suggestion` caches whatever
result the fetch produced, error results included. -/
theorem ai_retry_once_and_cache (outcomes : ℕ → ApiOutcome) (delaySeed : ℕ)
    (cache : List ((String × String) × AiResult)) (court meal : String)
    (hmiss : cache.lookup (court, meal) = none) :
    (outcomes 0 = .rateLimited →
      (fetch_ai outcomes delaySeed).remoteCalls = 2 ∧
      (∃ d, (fetch_ai outcomes delaySeed).sleeps = [d] ∧
        Config.RETRY_DELAY_MIN ≤ d ∧ d ≤ Config.RETRY_DELAY_MAX) ∧
      (∀ p, outcomes 1 = .ok p →
        (fetch_ai outcomes delaySeed).result = .suggestion p) ∧
      (outcomes 1 = .rateLimited ∨ outcomes 1 = .otherError →
        ∃ m, (fetch_ai outcomes delaySeed).result = .failure m)) ∧
    (outcomes 0 = .otherError →
      (fetch_ai outcomes delaySeed).remoteCalls = 1 ∧
      (fetch_ai outcomes delaySeed).sleeps = [] ∧
      ∃ m, (fetch_ai outcomes delaySeed).result = .failure m) ∧
    (get_ai_suggestion cache court meal outcomes delaySeed).2.lookup
      (court, meal) = some (fetch_ai outcomes delaySeed).result := by
  refine ⟨?_, ?_, ?_⟩
  · intro h0
    have hdelay : Config.RETRY_DELAY_MIN ≤
        randint Config.RETRY_DELAY_MIN Config.RETRY_DELAY_MAX delaySeed ∧
        randint Config.RETRY_DELAY_MIN Config.RETRY_DELAY_MAX delaySeed ≤
        Config.RETRY_DELAY_MAX := by
      unfold randint Config.RETRY_DELAY_MIN Config.RETRY_DELAY_MAX
      have : delaySeed % 11 < 11 := Nat.mod_lt _ (by norm_num)
      omega
    refine ⟨?_, ⟨_, ?_, hdelay.1, hdelay.2⟩, ?_, ?_⟩
    · simp [fetch_ai, h0, fetch_ai_retry]
      cases h1 : outcomes 1 <;> rfl
    · simp [fetch_ai, h0, fetch_ai_retry]
      cases h1 : outcomes 1 <;> rfl
    · intro p h1
      simp [fetch_ai, h0, fetch_ai_retry, h1]
    · intro h1
      rcases h1 with h1 | h1 <;>
        exact ⟨"The AI suggestion failed. Try again.",
          by simp [fetch_ai, h0, fetch_ai_retry, h1]⟩
  · intro h0
    exact ⟨by simp [fetch_ai, h0], by simp [fetch_ai, h0],
      ⟨"The AI suggestion failed. Try again.", by simp [fetch_ai, h0]⟩⟩
  · simp [get_ai_suggestion, hmiss]

/-- Witness for `ai_retry_once_and_cache`: with a remote call that is
rate limited on every attempt, the fetch makes exactly two calls and the
resulting error is cached under the requested key. -/
theorem ai_retry_once_and_cache_witness :
    (fetch_ai (fun _ => ApiOutcome.rateLimited) 0).remoteCalls = 2 ∧
    (get_ai_suggestion [] "Wiley" "Lunch"
        (fun _ => ApiOutcome.rateLimited) 0).2.lookup ("Wiley", "Lunch") =
      some (fetch_ai (fun _ => ApiOutcome.rateLimited) 0).result := by
  have h := ai_retry_once_and_cache (fun _ => ApiOutcome.rateLimited) 0 []
    "Wiley" "Lunch" rfl
  exact ⟨(h.1 rfl).1, h.2.2⟩

theorem finishState_fst (st : AnnealState) : (finishState st).1 = st.best :=
  rfl

theorem finishState_key (st : AnnealState) :
    (finishState st).2.1 = st.bestKey := rfl

theorem finishState_totals (st : AnnealState) :
    (finishState st).2.2 = st.bestTotals := rfl

/-- The initial annealing state of `_run_optimization_for_court`. -/
def initState (pool : List Item) (rng : Rng) : AnnealState :=
  ⟨sample rng.sampleIdx 0 pool (min Config.INITIAL_ITEMS pool.length),
    none, none, none, Config.INITIAL_TEMP⟩

theorem run_optimization_eq (pool : List Item) (targets : Macro3)
    (w : Weights) (pen : Penalties) (rng : Rng)
    (h : ¬ pool.length < Config.MIN_ITEMS) :
    run_optimization_for_court pool targets w pen rng =
      finishState (annealLoop pool targets w pen rng Config.ITERATIONS 0
        (initState pool rng)) := by
  simp only [run_optimization_for_court, if_neg h, initState]

theorem sample_length (r : ℕ → ℕ) :
    ∀ (n t : ℕ) (pool : List Item), n ≤ pool.length →
      (sample r t pool n).length = n := by
  intro n
  induction n with
  | zero => intro t pool _; rfl
  | succ n ih =>
    intro t pool h
    have hpool : pool ≠ [] := by
      intro he
      subst he
      simp at h
    have hpos : 0 < pool.length := List.length_pos.mpr hpool
    have hlt : r t % pool.length < pool.length := Nat.mod_lt _ hpos
    have herase : (pool.eraseIdx (r t % pool.length)).length =
        pool.length - 1 := by
      simp [List.length_eraseIdx, hlt]
    simp only [sample, if_neg hpool, List.length_cons]
    rw [ih (t + 1) _ (by omega)]

theorem neighborOf_size (pool : List Item) (rng : Rng) (t : ℕ)
    (cur : List Item) (h2 : Config.MIN_ITEMS ≤ cur.length)
    (h5 : cur.length ≤ Config.MAX_ITEMS) :
    Config.MIN_ITEMS ≤ (neighborOf pool rng t cur).length ∧
      (neighborOf pool rng t cur).length ≤ Config.MAX_ITEMS := by
  rcases hact : rng.action t % 3 with _ | _ | k
  · simp only [neighborOf, hact]
    split
    · simp only [List.length_set]
      omega
    · omega
  · simp only [neighborOf, hact]
    split
    · split
      · omega
      · simp only [List.length_append, List.length_singleton]
        unfold Config.MIN_ITEMS Config.MAX_ITEMS at *
        omega
    · omega
  · simp only [neighborOf, hact]
    split
    · rename_i hgt
      unfold Config.MIN_ITEMS Config.MAX_ITEMS at *
      have hlt : rng.slot t % cur.length < cur.length :=
        Nat.mod_lt _ (by omega)
      simp only [List.length_eraseIdx, if_pos hlt]
      omega
    · omega

/-- The size part of the annealing-loop invariant: the current solution
holds between `Config.MIN_ITEMS` and `Config.MAX_ITEMS` items and so does
any recorded best solution. -/
def sizeOk (st : AnnealState) : Prop :=
  (Config.MIN_ITEMS ≤ st.current.length ∧
    st.current.length ≤ Config.MAX_ITEMS) ∧
  ∀ s, st.best = some s →
    Config.MIN_ITEMS ≤ s.length ∧ s.length ≤ Config.MAX_ITEMS

theorem annealStep_size (pool : List Item) (targets : Macro3) (w : Weights)
    (pen : Penalties) (rng : Rng) (t : ℕ) (st : AnnealState)
    (h : sizeOk st) : sizeOk (annealStep pool targets w pen rng t st) := by
  obtain ⟨hc, hb⟩ := h
  have hnb := neighborOf_size pool rng t st.current hc.1 hc.2
  have hcur2 : Config.MIN_ITEMS ≤
      (if scoreLt (calculate_score (neighborOf pool rng t st.current)
            targets w pen).1 (calculate_score st.current targets w pen).1 ||
          rng.accept t then neighborOf pool rng t st.current
        else st.current).length ∧
      (if scoreLt (calculate_score (neighborOf pool rng t st.current)
            targets w pen).1 (calculate_score st.current targets w pen).1 ||
          rng.accept t then neighborOf pool rng t st.current
        else st.current).length ≤ Config.MAX_ITEMS := by
    split
    · exact hnb
    · exact hc
  simp only [annealStep]
  split
  · exact ⟨hcur2, by
      intro s hs
      simp only [Option.some.injEq] at hs
      subst hs
      exact hnb⟩
  · exact ⟨hcur2, hb⟩

theorem annealLoop_size (pool : List Item) (targets : Macro3) (w : Weights)
    (pen : Penalties) (rng : Rng) :
    ∀ (n t : ℕ) (st : AnnealState), sizeOk st →
      sizeOk (annealLoop pool targets w pen rng n t st) := by
  intro n
  induction n with
  | zero => intro t st h; exact h
  | succ n ih =>
    intro t st h
    simp only [annealLoop]
    split
    · exact h
    · exact ih (t + 1) _ (annealStep_size pool targets w pen rng t st h)

/-- C7: for every candidate pool of at least `Config.MIN_ITEMS` items and
every randomness oracle, any solution the optimizer returns contains
between `Config.MIN_ITEMS` (2) and `Config.MAX_ITEMS` (5) items: the
initial sample has `min(Config.INITIAL_ITEMS, pool size)` items, the add
move fires only below the maximum size, the remove move only above the
minimum size, and swaps preserve the size. -/
theorem optimizer_solution_size_bounds (pool : List Item) (targets : Macro3)
    (w : Weights) (pen : Penalties) (rng : Rng)
    (hpool : Config.MIN_ITEMS ≤ pool.length) :
    ∀ sol : List Item,
      (run_optimization_for_court pool targets w pen rng).1 = some sol →
      Config.MIN_ITEMS ≤ sol.length ∧ sol.length ≤ Config.MAX_ITEMS := by
  intro sol hsol
  have hnotlt : ¬ pool.length < Config.MIN_ITEMS := not_lt.mpr hpool
  have hinit : (sample rng.sampleIdx 0 pool
      (min Config.INITIAL_ITEMS pool.length)).length =
      min Config.INITIAL_ITEMS pool.length :=
    sample_length rng.sampleIdx _ 0 pool (min_le_right _ _)
  have hinit_ok : sizeOk (initState pool rng) := by
    refine ⟨?_, by intro s hs; simp [initState] at hs⟩
    simp only [initState]
    rw [hinit]
    unfold Config.MIN_ITEMS Config.MAX_ITEMS Config.INITIAL_ITEMS at *
    omega
  have hloop := annealLoop_size pool targets w pen rng Config.ITERATIONS 0 _
    hinit_ok
  rw [run_optimization_eq pool targets w pen rng hnotlt,
    finishState_fst] at hsol
  exact hloop.2 sol hsol

/-- Witness for `optimizer_solution_size_bounds` at a concrete pool of
two items and a concrete oracle. -/
theorem optimizer_solution_size_bounds_witness :
    Config.MIN_ITEMS ≤ ([egg, rice] : List Item).length ∧
    ∀ sol : List Item,
      (run_optimization_for_court [egg, rice] ⟨25, 45, 13⟩ configWeights
        configPenalties zeroRng).1 = some sol →
      Config.MIN_ITEMS ≤ sol.length ∧ sol.length ≤ Config.MAX_ITEMS :=
  ⟨by decide, optimizer_solution_size_bounds [egg, rice] ⟨25, 45, 13⟩
    configWeights configPenalties zeroRng (by decide)⟩

theorem uniqueStep_forall (P : Item → Prop) (acc : List Item) (item : Item)
    (hacc : ∀ x ∈ acc, P x) (hitem : P item) :
    ∀ x ∈ uniqueStep acc item, P x := by
  unfold uniqueStep
  split
  · intro x hx
    rcases List.mem_map.mp hx with ⟨y, hy, hxy⟩
    by_cases hk : uniqueKey y = uniqueKey item
    · rw [if_pos hk] at hxy
      exact hxy ▸ hitem
    · rw [if_neg hk] at hxy
      exact hxy ▸ hacc y hy
  · intro x hx
    rcases List.mem_append.mp hx with hx | hx
    · exact hacc x hx
    · rcases List.mem_singleton.mp hx with rfl
      exact hitem

theorem uniqueFoods_forall (P : Item → Prop) :
    ∀ (l acc : List Item), (∀ x ∈ acc, P x) → (∀ x ∈ l, P x) →
      ∀ x ∈ l.foldl uniqueStep acc, P x := by
  intro l
  induction l with
  | nil => intro acc hacc _ x hx; exact hacc x hx
  | cons a l ih =>
    intro acc hacc hl x hx
    refine ih (uniqueStep acc a)
      (uniqueStep_forall P acc a hacc (hl a (List.mem_cons_self a l)))
      (fun y hy => hl y (List.mem_cons_of_mem a hy)) x hx

/-- Key distinctness, the invariant of the `unique_foods` dict. -/
def KeysDistinct (l : List Item) : Prop :=
  l.Pairwise (fun a b => uniqueKey a ≠ uniqueKey b)

theorem uniqueStep_keys (acc : List Item) (item : Item)
    (h : KeysDistinct acc) : KeysDistinct (uniqueStep acc item) := by
  unfold uniqueStep KeysDistinct
  split
  · rw [List.pairwise_map]
    refine h.imp_of_mem ?_
    intro a b _ _ hne
    by_cases ha : uniqueKey a = uniqueKey item
    · by_cases hb : uniqueKey b = uniqueKey item
      · exact absurd (ha.trans hb.symm) hne
      · rw [if_pos ha, if_neg hb, ← ha]
        exact hne
    · by_cases hb : uniqueKey b = uniqueKey item
      · rw [if_neg ha, if_pos hb, ← hb]
        exact hne
      · rw [if_neg ha, if_neg hb]
        exact hne
  · rename_i hany
    rw [List.pairwise_append]
    refine ⟨h, List.pairwise_singleton _ _, ?_⟩
    intro a ha b hb
    rcases List.mem_singleton.mp hb with rfl
    intro he
    exact hany (List.any_eq_true.mpr ⟨a, ha, by simp [he]⟩)

theorem uniqueFoods_keys :
    ∀ (l acc : List Item), KeysDistinct acc →
      KeysDistinct (l.foldl uniqueStep acc) := by
  intro l
  induction l with
  | nil => intro acc h; exact h
  | cons a l ih => intro acc h; exact ih _ (uniqueStep_keys acc a h)

/-- Instances making `densityGe` usable with `List.insertionSort`. -/
instance : IsTotal ProteinFood densityGe :=
  ⟨fun a b => le_total b.protein_density a.protein_density⟩

instance : IsTrans ProteinFood densityGe :=
  ⟨fun _ _ _ hab hbc => le_trans hbc hab⟩

theorem proteinDense_spec (l : List Item) :
    (∀ x ∈ proteinDense l,
      x.item ∈ uniqueFoods l ∧ caloriesOf x.item > 50 ∧ x.item.p > 5 ∧
      x.calories = caloriesOf x.item ∧
      x.protein_density = x.item.p / caloriesOf x.item * 100) ∧
    (proteinDense l).Pairwise
      (fun a b => uniqueKey a.item ≠ uniqueKey b.item) := by
  constructor
  · intro x hx
    rcases List.mem_filterMap.mp hx with ⟨food, hfood, hf⟩
    by_cases hc : caloriesOf food > 50 ∧ food.p > 5
    · rw [if_pos hc] at hf
      cases hf
      exact ⟨hfood, hc.1, hc.2, rfl, rfl⟩
    · rw [if_neg hc] at hf
      cases hf
  · refine List.Pairwise.filterMap _ ?_ (uniqueFoods_keys l [] List.Pairwise.nil)
    intro a a' hne b hb b' hb'
    have hab : b.item = a := by
      by_cases hc : caloriesOf a > 50 ∧ a.p > 5
      · rw [if_pos hc] at hb
        cases Option.mem_def.mp hb
        rfl
      · rw [if_neg hc] at hb
        cases hb
    have hab' : b'.item = a' := by
      by_cases hc : caloriesOf a' > 50 ∧ a'.p > 5
      · rw [if_pos hc] at hb'
        cases Option.mem_def.mp hb'
        rfl
      · rw [if_neg hc] at hb'
        cases hb'
    rw [hab, hab']
    exact hne

/-- C10: for every item store and every count, `get_top_protein_foods`
returns at most `count` entries, each derived from a stored item whose
calories `p*4 + c*4 + f*9` exceed 50 and whose protein exceeds 5 grams,
carrying those calories and the density `p / calories * 100` (protein per
100 calories), deduplicated by the `(name, p, c, f)` key and sorted in
non-increasing order of protein density. -/
theorem top_protein_foods_spec (store : List Item) (count : ℕ) :
    (get_top_protein_foods store count).length ≤ count ∧
    (∀ x ∈ get_top_protein_foods store count,
      x.item ∈ store ∧ caloriesOf x.item > 50 ∧ x.item.p > 5 ∧
      x.calories = caloriesOf x.item ∧
      x.protein_density = x.item.p / caloriesOf x.item * 100) ∧
    (get_top_protein_foods store count).Pairwise densityGe ∧
    (get_top_protein_foods store count).Pairwise
      (fun a b => uniqueKey a.item ≠ uniqueKey b.item) := by
  have hperm : List.Perm (List.insertionSort densityGe (proteinDense store))
      (proteinDense store) := List.perm_insertionSort densityGe _
  have hspec := proteinDense_spec store
  refine ⟨?_, ?_, ?_, ?_⟩
  · simp [get_top_protein_foods, List.length_take]
  · intro x hx
    have hx2 : x ∈ List.insertionSort densityGe (proteinDense store) :=
      List.mem_of_mem_take hx
    have hx3 : x ∈ proteinDense store := hperm.mem_iff.mp hx2
    obtain ⟨hmem, h50, h5, hcal, hden⟩ := hspec.1 x hx3
    exact ⟨uniqueFoods_forall (· ∈ store) store [] (by intro y hy; cases hy)
      (fun y hy => hy) x.item hmem, h50, h5, hcal, hden⟩
  · exact (List.sorted_insertionSort densityGe (proteinDense store)).sublist
      (List.take_sublist _ _)
  · have hsym : Symmetric
        (fun a b : ProteinFood => uniqueKey a.item ≠ uniqueKey b.item) :=
      fun _ _ h he => h he.symm
    have := (hperm.pairwise_iff (fun h => hsym h)).mpr hspec.2
    exact this.sublist (List.take_sublist _ _)

/-- Witness-style instantiation of `top_protein_foods_spec` at a concrete
store and count. -/
theorem top_protein_foods_spec_witness :
    (get_top_protein_foods [egg, rice] 1).length ≤ 1 :=
  (top_protein_foods_spec [egg, rice] 1).1

theorem scoreLt_none_left (b : Option ℚ) : scoreLt none b = false := rfl

theorem scoreLt_none_right_iff (a : Option ℚ) :
    scoreLt a none = true ↔ a ≠ none := by
  cases a <;> simp [scoreLt]

theorem scoreLt_none_right_false_iff (a : Option ℚ) :
    scoreLt a none = false ↔ a = none := by
  cases a <;> simp [scoreLt]

theorem scoreLt_some_ne_none (a b : Option ℚ) (h : scoreLt a b = true) :
    a ≠ none := by
  cases a
  · simp [scoreLt] at h
  · simp

theorem scoreLt_trans (a b c : Option ℚ) (hab : scoreLt a b = true)
    (hbc : scoreLt b c = true) : scoreLt a c = true := by
  cases a <;> cases b <;> cases c <;>
    simp_all [scoreLt]
  linarith

theorem scoreLt_of_lt_of_not_lt (a b c : Option ℚ)
    (hab : scoreLt a b = true) (hcb : scoreLt c b = false) :
    scoreLt a c = true := by
  cases a <;> cases b <;> cases c <;> simp_all [scoreLt]
  linarith

/-- The score-linkage part of the annealing-loop invariant: either no
best solution has been recorded and the best score is `+inf`, or the
best solution is a non-empty plan and the best score is exactly its
score. -/
def keyOk (targets : Macro3) (w : Weights) (pen : Penalties)
    (st : AnnealState) : Prop :=
  (st.best = none ∧ st.bestKey = none) ∨
  (∃ s, st.best = some s ∧ s ≠ [] ∧
    st.bestKey = some (scoreSq s targets w pen))

theorem calculate_score_fst_none_iff (plan : List Item) (targets : Macro3)
    (w : Weights) (pen : Penalties) :
    (calculate_score plan targets w pen).1 = none ↔ plan = [] := by
  by_cases h : plan = [] <;> simp [calculate_score, h]

theorem annealStep_keyOk (pool : List Item) (targets : Macro3) (w : Weights)
    (pen : Penalties) (rng : Rng) (t : ℕ) (st : AnnealState)
    (h : keyOk targets w pen st) :
    keyOk targets w pen (annealStep pool targets w pen rng t st) := by
  simp only [annealStep]
  split
  · rename_i hbetter
    right
    refine ⟨neighborOf pool rng t st.current, rfl, ?_, ?_⟩
    · intro he
      have := scoreLt_some_ne_none _ _ hbetter
      rw [(calculate_score_fst_none_iff _ targets w pen).mpr he] at this
      exact this rfl
    · have hne : neighborOf pool rng t st.current ≠ [] := by
        intro he
        have := scoreLt_some_ne_none _ _ hbetter
        rw [(calculate_score_fst_none_iff _ targets w pen).mpr he] at this
        exact this rfl
      simp [calculate_score, hne]
  · exact h

theorem annealLoop_keyOk (pool : List Item) (targets : Macro3) (w : Weights)
    (pen : Penalties) (rng : Rng) :
    ∀ (n t : ℕ) (st : AnnealState), keyOk targets w pen st →
      keyOk targets w pen (annealLoop pool targets w pen rng n t st) := by
  intro n
  induction n with
  | zero => intro t st h; exact h
  | succ n ih =>
    intro t st h
    simp only [annealLoop]
    split
    · exact h
    · exact ih (t + 1) _ (annealStep_keyOk pool targets w pen rng t st h)

/-- Well-formedness of an optimizer result: the solution is absent with
an infinite score, or present, non-empty, with the score of the solution
itself (in particular the score is finite iff a truthy solution is
returned). -/
theorem run_optimization_wf (pool : List Item) (targets : Macro3)
    (w : Weights) (pen : Penalties) (rng : Rng) :
    ((run_optimization_for_court pool targets w pen rng).1 = none ∧
      (run_optimization_for_court pool targets w pen rng).2.1 = none) ∨
    (∃ s, (run_optimization_for_court pool targets w pen rng).1 = some s ∧
      s ≠ [] ∧ (run_optimization_for_court pool targets w pen rng).2.1 =
        some (scoreSq s targets w pen)) := by
  by_cases hlt : pool.length < Config.MIN_ITEMS
  · left
    constructor <;> simp [run_optimization_for_court, if_pos hlt]
  · have hloop := annealLoop_keyOk pool targets w pen rng Config.ITERATIONS 0
      (initState pool rng) (Or.inl ⟨rfl, rfl⟩)
    rw [run_optimization_eq pool targets w pen rng hlt, finishState_fst,
      finishState_key]
    exact hloop

theorem courtRun_eq (filtered : List Item) (targets : Macro3)
    (excl periods : List String) (rng : String → Rng) (court : String) :
    courtRun filtered targets excl periods rng court =
      run_optimization_for_court (courtItems filtered excl periods court)
        targets configWeights configPenalties (rng court) := rfl

theorem courtScore_eq (filtered : List Item) (targets : Macro3)
    (excl periods : List String) (rng : String → Rng) (court : String) :
    courtScore filtered targets excl periods rng court =
      (courtRun filtered targets excl periods rng court).2.1 := rfl

theorem courtBest_score (filtered : List Item) (targets : Macro3)
    (excl periods : List String) (rng : String → Rng) (court : String) :
    (courtBest filtered targets excl periods rng court).score =
      courtScore filtered targets excl periods rng court := by
  simp only [courtBest, courtScore]
  cases h : (courtRun filtered targets excl periods rng court).1 with
  | none => rfl
  | some s =>
    cases s with
    | nil => rfl
    | cons i rest => rfl

theorem courtBest_court (filtered : List Item) (targets : Macro3)
    (excl periods : List String) (rng : String → Rng) (court : String) :
    (courtBest filtered targets excl periods rng court).court = court := by
  simp only [courtBest]
  cases h : (courtRun filtered targets excl periods rng court).1 with
  | none => rfl
  | some s =>
    cases s with
    | nil => rfl
    | cons i rest => rfl

theorem courtBest_plan (filtered : List Item) (targets : Macro3)
    (excl periods : List String) (rng : String → Rng) (court : String)
    (s : List Item)
    (h1 : (courtRun filtered targets excl periods rng court).1 = some s)
    (hs : s ≠ []) :
    (courtBest filtered targets excl periods rng court).plan = s := by
  simp only [courtBest]
  rw [h1]
  cases s with
  | nil => exact absurd rfl hs
  | cons i rest => rfl

theorem selectStep_eq (filtered : List Item) (targets : Macro3)
    (excl periods : List String) (rng : String → Rng)
    (acc : Option BestMeal × Option ℚ) (court : String) :
    selectStep filtered targets excl periods rng acc court =
      if scoreLt (courtScore filtered targets excl periods rng court) acc.2
      then (some (courtBest filtered targets excl periods rng court),
            courtScore filtered targets excl periods rng court)
      else acc := by
  rcases run_optimization_wf (courtItems filtered excl periods court) targets
      configWeights configPenalties (rng court) with ⟨h1, h2⟩ | ⟨s, h1, hs, h2⟩
  · have h1' : (courtRun filtered targets excl periods rng court).1 = none := by
      rw [courtRun_eq]
      exact h1
    have h2' : courtScore filtered targets excl periods rng court = none := by
      rw [courtScore_eq, courtRun_eq]
      exact h2
    simp only [selectStep]
    rw [h1', h2']
    simp [scoreLt_none_left]
  · have h1' : (courtRun filtered targets excl periods rng court).1 =
        some s := by
      rw [courtRun_eq]
      exact h1
    cases s with
    | nil => exact absurd rfl hs
    | cons i rest =>
      have hbm : courtBest filtered targets excl periods rng court =
          ⟨(courtRun filtered targets excl periods rng court).2.1, court,
            i.meal_name, i :: rest,
            (courtRun filtered targets excl periods rng court).2.2⟩ := by
        simp only [courtBest]
        rw [h1']
      simp only [selectStep]
      rw [h1', hbm, courtScore_eq]

theorem selectLoop_spec (filtered : List Item) (targets : Macro3)
    (excl periods : List String) (rng : String → Rng) :
    ∀ (cs : List String) (acc : Option BestMeal × Option ℚ),
      (List.foldl (selectStep filtered targets excl periods rng) acc cs =
          acc ∧
        ∀ c ∈ cs, scoreLt
          (courtScore filtered targets excl periods rng c) acc.2 = false) ∨
      (∃ b pre post,
        List.foldl (selectStep filtered targets excl periods rng) acc cs =
          (some b, b.score) ∧
        b = courtBest filtered targets excl periods rng b.court ∧
        scoreLt b.score acc.2 = true ∧
        cs = pre ++ b.court :: post ∧
        (∀ c ∈ pre, scoreLt b.score
          (courtScore filtered targets excl periods rng c) = true) ∧
        (∀ c ∈ post, scoreLt
          (courtScore filtered targets excl periods rng c) b.score =
            false)) := by
  intro cs
  induction cs with
  | nil =>
    intro acc
    left
    exact ⟨rfl, by intro c hc; cases hc⟩
  | cons c cs ih =>
    intro acc
    rw [List.foldl_cons, selectStep_eq]
    by_cases hc : scoreLt
        (courtScore filtered targets excl periods rng c) acc.2 = true
    · rw [if_pos hc]
      set b0 := courtBest filtered targets excl periods rng c with hb0
      have hb0score : b0.score =
          courtScore filtered targets excl periods rng c :=
        courtBest_score filtered targets excl periods rng c
      have hb0court : b0.court = c :=
        courtBest_court filtered targets excl periods rng c
      have hacc2 : (some b0,
          courtScore filtered targets excl periods rng c) =
          (some b0, b0.score) := by rw [hb0score]
      rw [hacc2]
      rcases ih (some b0, b0.score) with ⟨heq, hall⟩ | hright
      · right
        refine ⟨b0, [], cs, heq, ?_, ?_, ?_, ?_, ?_⟩
        · rw [hb0court]
        · rw [hb0score]
          exact hc
        · rw [List.nil_append, hb0court]
        · intro x hx
          cases hx
        · exact hall
      · rcases hright with ⟨b, pre, post, hfold, hb, hlt, hcs, hpre, hpost⟩
        right
        refine ⟨b, c :: pre, post, hfold, hb, ?_, ?_, ?_, hpost⟩
        · rw [hb0score] at hlt
          exact scoreLt_trans _ _ _ hlt hc
        · rw [hcs, List.cons_append]
        · intro x hx
          rcases List.mem_cons.mp hx with rfl | hx
          · rw [hb0score] at hlt
            exact hlt
          · exact hpre x hx
    · have hc2 : scoreLt
          (courtScore filtered targets excl periods rng c) acc.2 = false :=
        Bool.not_eq_true _ ▸ eq_false_of_ne_true hc
      rw [if_neg (by rw [hc2]; exact Bool.false_ne_true)]
      rcases ih acc with ⟨heq, hall⟩ | hright
      · left
        refine ⟨heq, ?_⟩
        intro x hx
        rcases List.mem_cons.mp hx with rfl | hx
        · exact hc2
        · exact hall x hx
      · rcases hright with ⟨b, pre, post, hfold, hb, hlt, hcs, hpre, hpost⟩
        right
        refine ⟨b, c :: pre, post, hfold, hb, hlt, ?_, ?_, hpost⟩
        · rw [hcs, List.cons_append]
        · intro x hx
          rcases List.mem_cons.mp hx with rfl | hx
          · exact scoreLt_of_lt_of_not_lt _ _ _ hlt hc2
          · exact hpre x hx

theorem scoreVal_eq_top_iff (k : Option ℚ) : scoreVal k = ⊤ ↔ k = none := by
  cases k <;> simp [scoreVal]

theorem courtScore_nonneg (filtered : List Item) (targets : Macro3)
    (excl periods : List String) (rng : String → Rng) (c : String) :
    ∀ q, courtScore filtered targets excl periods rng c = some q → 0 ≤ q := by
  intro q hq
  rw [courtScore_eq, courtRun_eq] at hq
  rcases run_optimization_wf (courtItems filtered excl periods c) targets
      configWeights configPenalties (rng c) with ⟨_, h2⟩ | ⟨s, _, _, h2⟩
  · rw [h2] at hq
    cases hq
  · rw [h2] at hq
    cases hq
    exact scoreSq_nonneg s targets configWeights configPenalties
      (by norm_num [configWeights]) (by norm_num [configWeights])
      (by norm_num [configWeights])

theorem scoreVal_le_of_not_lt (a b : Option ℚ)
    (ha : ∀ q, a = some q → 0 ≤ q) (hb : ∀ q, b = some q → 0 ≤ q)
    (h : scoreLt a b = false) : scoreVal b ≤ scoreVal a := by
  by_contra hlt
  push_neg at hlt
  rw [(scoreLt_iff_scoreVal_lt a b ha hb).mpr hlt] at h
  cases h

/-- C2: for every item store, request and randomness oracles,
`find_best_meal` reports `None` exactly when no eligible location's
optimizer run yields a finite-score (truthy) solution; and when it
returns a result, that result carries the first eligible location
attaining the minimum score across locations (every earlier location is
strictly worse, no location is strictly better), together with that
location's solution and score. -/
theorem find_best_meal_selects_best (master : List Item) (targets : Macro3)
    (periods excl : List String) (fl : Filters) (rng : String → Rng) :
    (find_best_meal master targets periods excl fl rng = none ↔
      ∀ c ∈ availableCourts (dietaryFilter fl master) excl periods,
        scoreVal (courtScore (dietaryFilter fl master) targets excl periods
          rng c) = ⊤) ∧
    (∀ b, find_best_meal master targets periods excl fl rng = some b →
      b.court ∈ availableCourts (dietaryFilter fl master) excl periods ∧
      b.score = courtScore (dietaryFilter fl master) targets excl periods
        rng b.court ∧
      (courtRun (dietaryFilter fl master) targets excl periods rng
        b.court).1 = some b.plan ∧
      scoreVal b.score ≠ ⊤ ∧
      (∀ c ∈ availableCourts (dietaryFilter fl master) excl periods,
        scoreVal b.score ≤ scoreVal (courtScore (dietaryFilter fl master)
          targets excl periods rng c)) ∧
      (∃ pre post,
        availableCourts (dietaryFilter fl master) excl periods =
          pre ++ b.court :: post ∧
        ∀ c ∈ pre, scoreVal b.score < scoreVal (courtScore
          (dietaryFilter fl master) targets excl periods rng c))) := by
  by_cases hcs : availableCourts (dietaryFilter fl master) excl periods = []
  · constructor
    · constructor
      · intro _ c hc
        rw [hcs] at hc
        cases hc
      · intro _
        simp [find_best_meal, hcs]
    · intro b hfind
      rw [find_best_meal] at hfind
      simp only [hcs, if_pos] at hfind
      cases hfind
  · have hfind : find_best_meal master targets periods excl fl rng =
        (List.foldl (selectStep (dietaryFilter fl master) targets excl
            periods rng) (none, none)
          (availableCourts (dietaryFilter fl master) excl periods)).1 := by
      simp only [find_best_meal, if_neg hcs]
    rcases selectLoop_spec (dietaryFilter fl master) targets excl periods rng
        (availableCourts (dietaryFilter fl master) excl periods)
        (none, none) with
      ⟨heq, hall⟩ | ⟨b, pre, post, hfold, hb, hlt, hcsdec, hpre, hpost⟩
    · have hnone : find_best_meal master targets periods excl fl rng =
          none := by
        rw [hfind, heq]
      constructor
      · constructor
        · intro _ c hc
          have := hall c hc
          rw [scoreVal_eq_top_iff]
          exact (scoreLt_none_right_false_iff _).mp this
        · intro _
          exact hnone
      · intro b hfind2
        rw [hnone] at hfind2
        cases hfind2
    · have hsome : find_best_meal master targets periods excl fl rng =
          some b := by
        rw [hfind, hfold]
      have hbscore : b.score = courtScore (dietaryFilter fl master) targets
          excl periods rng b.court := by
        conv_lhs => rw [hb]
        exact courtBest_score _ _ _ _ _ _
      have hbne : b.score ≠ none := by
        intro he
        have := hlt
        rw [he] at this
        simp [scoreLt] at this
      have hmem : b.court ∈ availableCourts (dietaryFilter fl master) excl
          periods := by
        rw [hcsdec]
        exact List.mem_append_right _ (List.mem_cons_self _ _)
      have hbnn : ∀ q, b.score = some q → 0 ≤ q := by
        rw [hbscore]
        exact courtScore_nonneg _ _ _ _ _ _
      have hplan : (courtRun (dietaryFilter fl master) targets excl periods
          rng b.court).1 = some b.plan := by
        rcases run_optimization_wf (courtItems (dietaryFilter fl master)
            excl periods b.court) targets configWeights configPenalties
            (rng b.court) with ⟨h1, h2⟩ | ⟨s, h1, hs, h2⟩
        · exfalso
          apply hbne
          rw [hbscore, courtScore_eq, courtRun_eq, h2]
        · have h1' : (courtRun (dietaryFilter fl master) targets excl
              periods rng b.court).1 = some s := by
            rw [courtRun_eq]
            exact h1
          have := courtBest_plan (dietaryFilter fl master) targets excl
            periods rng b.court s h1' hs
          rw [h1']
          congr 1
          rw [hb]
          exact this.symm
      constructor
      · constructor
        · intro habs
          rw [hsome] at habs
          cases habs
        · intro hall2
          exfalso
          have := hall2 b.court hmem
          rw [← hbscore, scoreVal_eq_top_iff] at this
          exact hbne this
      · intro b' hfind2
        rw [hsome] at hfind2
        cases hfind2
        refine ⟨hmem, hbscore, hplan, ?_, ?_, ?_⟩
        · simp only [ne_eq, scoreVal_eq_top_iff]
          exact hbne
        · intro c hc
          rw [hcsdec] at hc
          rcases List.mem_append.mp hc with hc | hc
          · exact le_of_lt ((scoreLt_iff_scoreVal_lt _ _ hbnn
              (courtScore_nonneg _ _ _ _ _ _)).mp (hpre c hc))
          · rcases List.mem_cons.mp hc with rfl | hc
            · rw [← hbscore]
            · exact scoreVal_le_of_not_lt _ _
                (courtScore_nonneg _ _ _ _ _ _) hbnn (hpost c hc)
        · refine ⟨pre, post, hcsdec, ?_⟩
          intro c hc
          exact (scoreLt_iff_scoreVal_lt _ _ hbnn
            (courtScore_nonneg _ _ _ _ _ _)).mp (hpre c hc)

/-- Witness for `find_best_meal_selects_best`: over an empty store there
is no eligible location, so the selector reports no meal plan found. -/
theorem find_best_meal_selects_best_witness :
    find_best_meal [] ⟨25, 45, 13⟩ ["Lunch"] []
      ⟨false, false, false, false, false⟩ (fun _ => zeroRng) = none :=
  (find_best_meal_selects_best [] ⟨25, 45, 13⟩ ["Lunch"] []
    ⟨false, false, false, false, false⟩ (fun _ => zeroRng)).1.mpr
    (by intro c hc; simp [dietaryFilter, availableCourts] at hc)

end MacroFinder
